import Mathlib

/-!
Verification of the TART graph tokenizer (`src/tokenizer/lap_tokenizer_v4.py`).

The source converts a graph, given as an adjacency matrix `A` (N×N) and a
node-feature matrix `Xv`, into a fixed-height token matrix.  Its two functions
are `lap_eigen` (spectral embedding from the normalized Laplacian) and
`token_construction` (node/edge row assembly, then padding or truncation to
`N + max_edges` rows, with the module constant `max_edges = 3000`).

Embedding conventions:
* Numpy 2-D arrays are lists of rows over a linear ordered field `α`
  (the source computes with floating-point reals; theorems may be read at
  `α = ℝ`, while evaluation examples use `α = ℚ`).
* `np.linalg.eig` is a numerical routine; it enters the development as an
  explicit parameter `eig : Mat α → List α × Mat α` returning the pair
  (eigenvalues, eigenvector matrix), exactly the data the source destructures.
  Likewise `np.sqrt` enters as a parameter `sq : α → α` (instantiated with
  `Real.sqrt` on `ℝ`).
* `np.array` applied to an empty Python list yields a 1-D array of shape
  `(0,)`; `np.hstack`/`np.vstack` raise a `ValueError` on dimension or shape
  mismatch.  These numpy behaviours are modelled by the inductive `ND` (an
  array that is either 1-D or 2-D) and by stacking operations returning
  `Except String`, since the source's control flow can reach those errors.
-/

namespace Tokenizer

/-- Numpy 2-D array, modelled as a list of rows. -/
abbrev Mat (α : Type) := List (List α)

variable {α : Type} [LinearOrderedField α]

/-- Matrix read `M[i, j]` (indices are in range at every use in the source;
out-of-range reads default to `0`). -/
def entry (M : Mat α) (i j : ℕ) : α := (M.getD i []).getD j 0

/-- Number of rows of a matrix (`shape[0]`). -/
def numRows (M : Mat α) : ℕ := M.length

/-- Number of columns of a matrix (`shape[1]`, read off the first row). -/
def numCols (M : Mat α) : ℕ := (M.getD 0 []).length

/-- Matrix `np.zeros((n, m))`. -/
def zerosMat (n m : ℕ) : Mat α := List.replicate n (List.replicate m 0)

/-- Row sums `np.sum(A, axis=1)` — the degree vector (line 23). -/
def degrees (A : Mat α) : List α := A.map List.sum

/-- Diagonal matrix `np.diag(d)` from a vector `d`. -/
def npDiag (d : List α) : Mat α :=
  (List.range d.length).map (fun i =>
    (List.range d.length).map (fun j => if i = j then d.getD i 0 else 0))

/-- Identity matrix `np.identity n`. -/
def npIdentity (n : ℕ) : Mat α := npDiag (List.replicate n 1)

/-- Moore–Penrose pseudo-inverse `np.linalg.pinv`, as applied by the source to
the diagonal degree matrix (line 27): the pseudo-inverse of a diagonal matrix
is the elementwise pseudo-inverse, sending `0 ↦ 0` and `d ↦ d⁻¹`. -/
def pinvDiag (M : Mat α) : Mat α :=
  M.map (fun r => r.map (fun x => if x = 0 then 0 else x⁻¹))

/-- Elementwise `np.sqrt` on a matrix, with the square root function `sq`
passed explicitly. -/
def matSqrt (sq : α → α) (M : Mat α) : Mat α := M.map (fun r => r.map sq)

/-- Column `j` of a matrix. -/
def colOf (M : Mat α) (j : ℕ) : List α := M.map (fun r => r.getD j 0)

/-- Dot product of two vectors. -/
def dotL (a b : List α) : α := (List.zipWith (fun x y => x * y) a b).sum

/-- Matrix product `np.dot`. -/
def npDot (M N : Mat α) : Mat α :=
  M.map (fun r => (List.range (numCols N)).map (fun j => dotL r (colOf N j)))

/-- Elementwise matrix subtraction. -/
def matSub (M N : Mat α) : Mat α := List.zipWith (List.zipWith (fun x y => x - y)) M N

/-- Line 27: `D_sqrt_inv = np.sqrt(np.linalg.pinv(D))` with `D = np.diag(np.sum(A, axis=1))`. -/
def D_sqrt_inv (sq : α → α) (A : Mat α) : Mat α :=
  matSqrt sq (pinvDiag (npDiag (degrees A)))

/-- Line 28: the normalized Laplacian
`L = np.identity(A.shape[0]) - np.dot(np.dot(D_sqrt_inv, A), D_sqrt_inv)`. -/
def normLap (sq : α → α) (A : Mat α) : Mat α :=
  matSub (npIdentity A.length) (npDot (npDot (D_sqrt_inv sq A) A) (D_sqrt_inv sq A))

/-- Index sort `np.argsort(v)` (line 32): the list of indices of `v` sorted by
ascending value (a comparison sort; the model fixes the stable insertion sort
as the canonical choice, since `np.argsort` leaves the order of ties to the
sorting kind). -/
def argsort (v : List α) : List ℕ :=
  List.insertionSort (fun i j => v.getD i 0 ≤ v.getD j 0) (List.range v.length)

/-- Column reindexing `M[:, idxs]` (line 34). -/
def colPermute (M : Mat α) (idxs : List ℕ) : Mat α :=
  M.map (fun r => idxs.map (fun k => r.getD k 0))

/-- Numpy column slice `M[:, a:b]` (line 38); numpy slices clip at the row
length instead of failing. -/
def colSlice (M : Mat α) (a b : ℕ) : Mat α := M.map (fun r => (r.drop a).take (b - a))

/-- Numpy slice assignment `Z[:, :k] = V` (line 41), row by row. -/
def setLeadingCols (Z V : Mat α) (k : ℕ) : Mat α :=
  List.zipWith (fun zr vr => vr.take k ++ zr.drop k) Z V

/-- Function `lap_eigen(A, dp)` (lines 9–43).  `sq` stands for `np.sqrt` and
`eig` for the numerical eigendecomposition `np.linalg.eig`, which returns the
pair (eigenvalues, matrix whose columns are eigenvectors).  The reordering of
the eigenvalue list itself (line 33) is dead code and is omitted. -/
def lap_eigen (sq : α → α) (eig : Mat α → List α × Mat α) (A : Mat α) (dp : ℕ) : Mat α :=
  let N := A.length
  let L := normLap sq A
  let eigvals := (eig L).1
  let eigvecs := (eig L).2
  let sorted_indices := argsort eigvals
  let sortedVecs := colPermute eigvecs sorted_indices
  if dp ≤ sorted_indices.length then
    colSlice sortedVecs 1 (dp + 1)
  else
    setLeadingCols (zerosMat N dp) sortedVecs sorted_indices.length

/-- Module constant `max_edges = 3000` (line 7). -/
def max_edges : ℕ := 3000

/-- Line 57: the edge list
`[(i, j) for i in range(N) for j in range(N) if A[i, j] != 0]`. -/
def node_pairs (A : Mat α) : List (ℕ × ℕ) :=
  (List.range A.length).flatMap (fun i =>
    ((List.range A.length).filter (fun j => decide (entry A i j ≠ 0))).map (fun j => (i, j)))

/-- Numpy array that is either 1-D or 2-D.  `np.array` of an empty Python list
gives a 1-D array of shape `(0,)`, which is how the source's `Xe`/`new_Xe`
(and `Ev` for `N = 0`) behave on empty input. -/
inductive ND (α : Type) where
  | d1 (v : List α)
  | d2 (m : List (List α))

/-- Conversion `np.array(rows)` of a Python list of rows: 1-D when empty,
2-D otherwise. -/
def npArray (rows : List (List α)) : ND α :=
  match rows with
  | [] => .d1 []
  | r :: rs => .d2 (r :: rs)

/-- Number of dimensions of an `ND` array. -/
def ndDim : ND α → ℕ
  | .d1 _ => 1
  | .d2 _ => 2

/-- Number of rows of an `ND` array (for the 2-D case). -/
def ndNRows : ND α → ℕ
  | .d1 _ => 1
  | .d2 m => m.length

/-- Numpy `np.atleast_2d`: a 1-D vector becomes a single row. -/
def atleast2d : ND α → Mat α
  | .d1 v => [v]
  | .d2 m => m

/-- Underlying flat vector of an `ND` array (used for 1-D concatenation). -/
def ndVec : ND α → List α
  | .d1 v => v
  | .d2 m => m.flatten

/-- Numpy `np.hstack`:  all inputs must have the same number of dimensions;
1-D inputs are concatenated; 2-D inputs are concatenated row by row, which
requires equal row counts.  Mismatches raise a `ValueError`. -/
def npHstack : List (ND α) → Except String (ND α)
  | [] => .error "hstack: need at least one array"
  | p :: ps =>
    if (p :: ps).all (fun q => decide (ndDim q = 1)) then
      .ok (.d1 ((p :: ps).map ndVec).flatten)
    else if (p :: ps).all (fun q => decide (ndDim q = 2)) then
      if ps.all (fun q => decide (ndNRows q = ndNRows p)) then
        .ok (.d2 ((List.range (ndNRows p)).map (fun i =>
          ((p :: ps).map (fun q => (atleast2d q).getD i [])).flatten)))
      else .error "hstack: row count mismatch"
    else .error "hstack: input arrays must have the same number of dimensions"

/-- Numpy `np.vstack`:  `np.atleast_2d` on both inputs, then row concatenation,
which requires equal column counts; a mismatch raises a `ValueError`. -/
def npVstack (a b : ND α) : Except String (Mat α) :=
  if ((atleast2d a).getD 0 []).length = ((atleast2d b).getD 0 []).length then
    .ok (atleast2d a ++ atleast2d b)
  else .error "vstack: column count mismatch"

/-- Numpy `np.pad(X, [(0, k), (0, 0)], mode='constant')`: append `k` all-zero
rows of the same width. -/
def npPadRows (X : Mat α) (k : ℕ) : Mat α := X ++ zerosMat k (numCols X)

/-- Node rows (lines 74–78): row `i` is
`Xv[i] ++ P[i] ++ P[i] ++ [1, 0, -1, -1]`, obtained from
`np.hstack((Xv, P, P, Ev))` with identifier rows `Ev[i] = [1, 0, -1, -1]`. -/
def node_token_rows (Xv P : Mat α) (N : ℕ) : Mat α :=
  (List.range N).map (fun i =>
    Xv.getD i [] ++ P.getD i [] ++ P.getD i [] ++ ([1, 0, -1, -1] : List α))

/-- Edge rows (lines 80–84): for the k-th edge `(u, v)` the row is
`Xe[k] ++ P[u] ++ P[v] ++ [0, 1, u, v]`, where `Xe[k] = [A[u, v]]`. -/
def edge_token_rows (A P : Mat α) : Mat α :=
  (node_pairs A).map (fun uv =>
    [entry A uv.1 uv.2] ++ P.getD uv.1 [] ++ P.getD uv.2 []
      ++ ([0, 1, (uv.1 : α), (uv.2 : α)] : List α))

/-- Lines 54–87 of `token_construction`: the unpadded token matrix
`X = np.vstack((new_Xv, new_Xe))` with
`new_Xv = np.hstack((Xv, P, P, Ev))` and `new_Xe` the stacked edge rows. -/
def token_stack (sq : α → α) (eig : Mat α → List α × Mat α) (A Xv : Mat α) (dp : ℕ)
    : Except String (Mat α) := do
  let N := A.length
  let P := lap_eigen sq eig A dp
  let Ev : Mat α := List.replicate N ([1, 0, -1, -1] : List α)
  let new_Xv ← npHstack [ND.d2 Xv, ND.d2 P, ND.d2 P, npArray Ev]
  let new_Xe := npArray (edge_token_rows A P)
  npVstack new_Xv new_Xe

/-- Function `token_construction(A, Xv, dp=3)` (lines 46–97): build the token
matrix, then zero-pad when `padding = max_edges - len(node_pairs)` is positive,
else truncate to the first `max_edges + N` rows. -/
def token_construction (sq : α → α) (eig : Mat α → List α × Mat α) (A Xv : Mat α)
    (dp : ℕ := 3) : Except String (Mat α) := do
  let X ← token_stack sq eig A Xv dp
  let padding : ℤ := (max_edges : ℤ) - (node_pairs A).length
  if 0 < padding then
    pure (npPadRows X padding.toNat)
  else
    pure (X.take (max_edges + A.length))

/-! Helper lemmas about the embedding. -/

theorem getD_map_range {β : Type} (f : ℕ → β) (d : β) {i n : ℕ} (hi : i < n) :
    ((List.range n).map f).getD i d = f i := by
  rw [List.getD_eq_getElem?_getD, List.getElem?_map, List.getElem?_range hi]
  rfl

theorem getD_mem {β : Type} {l : List β} {i : ℕ} (d : β) (hi : i < l.length) :
    l.getD i d ∈ l := by
  rw [List.getD_eq_getElem _ _ hi]
  exact List.getElem_mem hi

theorem getD_replicate {β : Type} {b d : β} {i n : ℕ} (hi : i < n) :
    (List.replicate n b).getD i d = b := by
  rw [List.getD_eq_getElem?_getD, List.getElem?_replicate, if_pos hi]
  rfl

/-- Membership in the edge list: exactly the in-range pairs with a nonzero
entry of `A`. -/
theorem mem_node_pairs {A : Mat α} {p : ℕ × ℕ} :
    p ∈ node_pairs A ↔ p.1 < A.length ∧ p.2 < A.length ∧ entry A p.1 p.2 ≠ 0 := by
  obtain ⟨i, j⟩ := p
  constructor
  · intro h
    obtain ⟨i', hi', hmem⟩ := List.mem_flatMap.mp h
    obtain ⟨j', hj', heq⟩ := List.mem_map.mp hmem
    obtain ⟨hj'r, hj'p⟩ := List.mem_filter.mp hj'
    cases heq
    exact ⟨List.mem_range.mp hi', List.mem_range.mp hj'r, of_decide_eq_true hj'p⟩
  · rintro ⟨hi, hj, hne⟩
    refine List.mem_flatMap.mpr ⟨i, List.mem_range.mpr hi, ?_⟩
    refine List.mem_map.mpr ⟨j, ?_, rfl⟩
    exact List.mem_filter.mpr ⟨List.mem_range.mpr hj, decide_eq_true hne⟩

/-- The edge list is strictly increasing in the row-major (lexicographic)
order on index pairs. -/
theorem node_pairs_pairwise (A : Mat α) :
    (node_pairs A).Pairwise (fun p q : ℕ × ℕ => p.1 < q.1 ∨ (p.1 = q.1 ∧ p.2 < q.2)) := by
  rw [node_pairs, List.flatMap_def, List.pairwise_flatten]
  constructor
  · intro l hl
    obtain ⟨i, hi, rfl⟩ := List.mem_map.mp hl
    refine List.pairwise_map.mpr ?_
    have h := (List.pairwise_lt_range A.length).filter
      (fun j => decide (entry A i j ≠ 0))
    exact h.imp (fun hab => Or.inr ⟨rfl, hab⟩)
  · refine List.pairwise_map.mpr ?_
    refine (List.pairwise_lt_range A.length).imp ?_
    intro a b hab x hx y hy
    obtain ⟨j, hj, rfl⟩ := List.mem_map.mp hx
    obtain ⟨k, hk, rfl⟩ := List.mem_map.mp hy
    exact Or.inl hab

theorem length_node_token_rows (Xv P : Mat α) (N : ℕ) :
    (node_token_rows Xv P N).length = N := by
  simp [node_token_rows]

theorem length_edge_token_rows (A P : Mat α) :
    (edge_token_rows A P).length = (node_pairs A).length := by
  simp [edge_token_rows]

/-- Edge count of a matrix all of whose in-range entries are nonzero. -/
theorem length_node_pairs_of_ne_zero (A : Mat α)
    (h : ∀ i j, i < A.length → j < A.length → entry A i j ≠ 0) :
    (node_pairs A).length = A.length * A.length := by
  rw [node_pairs, List.length_flatMap]
  have hcongr : ∀ i ∈ List.range A.length,
      (List.length ∘ fun i =>
        ((List.range A.length).filter (fun j => decide (entry A i j ≠ 0))).map
          (fun j => (i, j))) i = A.length := by
    intro i hi
    have hfil : (List.range A.length).filter (fun j => decide (entry A i j ≠ 0))
        = List.range A.length := by
      refine List.filter_eq_self.mpr ?_
      intro j hj
      exact decide_eq_true (h i j (List.mem_range.mp hi) (List.mem_range.mp hj))
    simp only [Function.comp_apply, List.length_map]
    rw [hfil, List.length_range]
  rw [List.map_congr_left hcongr]
  rw [List.map_const', List.sum_replicate, List.length_range, smul_eq_mul]

/-- Structure of the unpadded token matrix: with a well-formed node-feature
matrix (one feature column, as the source docstring specifies), a spectral
embedding of the right height, at least one node and at least one edge, the
stacking succeeds and yields exactly the node rows followed by the edge rows. -/
theorem token_stack_spec (sq : α → α) (eig : Mat α → List α × Mat α) (A Xv : Mat α)
    (dp pw : ℕ)
    (hXv : Xv.length = A.length)
    (hF : ∀ r ∈ Xv, r.length = 1)
    (hP : (lap_eigen sq eig A dp).length = A.length)
    (hPw : ∀ r ∈ lap_eigen sq eig A dp, r.length = pw)
    (hN : A.length ≠ 0)
    (hM : node_pairs A ≠ []) :
    token_stack sq eig A Xv dp =
      Except.ok (node_token_rows Xv (lap_eigen sq eig A dp) A.length
        ++ edge_token_rows A (lap_eigen sq eig A dp)) := by
  have hNpos : 0 < A.length := Nat.pos_of_ne_zero hN
  have hEv : npArray (List.replicate A.length ([1, 0, -1, -1] : List α))
      = ND.d2 (List.replicate A.length ([1, 0, -1, -1] : List α)) := by
    obtain ⟨n, hn⟩ := Nat.exists_eq_succ_of_ne_zero hN
    rw [hn, List.replicate_succ, npArray]
  have hstackEq : npHstack [ND.d2 Xv, ND.d2 (lap_eigen sq eig A dp), ND.d2 (lap_eigen sq eig A dp),
      npArray (List.replicate A.length ([1, 0, -1, -1] : List α))]
      = Except.ok (ND.d2 (node_token_rows Xv (lap_eigen sq eig A dp) A.length)) := by
    rw [hEv, npHstack]
    rw [if_neg (by simp [ndDim]), if_pos (by simp [ndDim]), if_pos (by simp [ndNRows, hXv, hP])]
    have hrows : ndNRows (ND.d2 Xv) = A.length := hXv
    rw [hrows]
    congr 1
    congr 1
    rw [node_token_rows]
    refine List.map_congr_left ?_
    intro i hi
    have hiN : i < A.length := List.mem_range.mp hi
    simp only [List.map_cons, List.map_nil, atleast2d, List.flatten_cons, List.flatten_nil]
    rw [getD_replicate hiN]
    simp [List.append_assoc]
  obtain ⟨p0, prest, hpairs⟩ : ∃ p ps, node_pairs A = p :: ps := by
    cases hcase : node_pairs A with
    | nil => exact absurd hcase hM
    | cons p ps => exact ⟨p, ps, rfl⟩
  have hXe : edge_token_rows A (lap_eigen sq eig A dp) =
      ([entry A p0.1 p0.2] ++ (lap_eigen sq eig A dp).getD p0.1 []
        ++ (lap_eigen sq eig A dp).getD p0.2 []
        ++ ([0, 1, (p0.1 : α), (p0.2 : α)] : List α))
      :: (prest.map (fun uv =>
        [entry A uv.1 uv.2] ++ (lap_eigen sq eig A dp).getD uv.1 []
          ++ (lap_eigen sq eig A dp).getD uv.2 []
          ++ ([0, 1, (uv.1 : α), (uv.2 : α)] : List α))) := by
    rw [edge_token_rows, hpairs, List.map_cons]
  have hrowXv : (Xv.getD 0 []).length = 1 := hF _ (getD_mem [] (by omega))
  have hrowP : ∀ u, u < A.length → ((lap_eigen sq eig A dp).getD u []).length = pw := by
    intro u hu
    exact hPw _ (getD_mem [] (by rw [hP]; exact hu))
  have hp0 := mem_node_pairs.mp (hpairs ▸ List.mem_cons_self p0 prest)
  have hnode0 : (node_token_rows Xv (lap_eigen sq eig A dp) A.length).getD 0 []
      = Xv.getD 0 [] ++ (lap_eigen sq eig A dp).getD 0 []
        ++ (lap_eigen sq eig A dp).getD 0 [] ++ ([1, 0, -1, -1] : List α) := by
    rw [node_token_rows, getD_map_range _ _ hNpos]
  have hvstackCond :
      ((atleast2d (ND.d2 (node_token_rows Xv (lap_eigen sq eig A dp) A.length))).getD 0 []).length
      = ((atleast2d (npArray (edge_token_rows A (lap_eigen sq eig A dp)))).getD 0 []).length := by
    rw [hXe, npArray]
    simp only [atleast2d]
    rw [hnode0]
    simp only [List.getD_cons_zero, List.length_append, List.length_cons, List.length_nil]
    rw [hrowXv, hrowP 0 hNpos, hrowP p0.1 hp0.1, hrowP p0.2 hp0.2.1]
  rw [token_stack]
  show (npHstack [ND.d2 Xv, ND.d2 (lap_eigen sq eig A dp), ND.d2 (lap_eigen sq eig A dp),
      npArray (List.replicate A.length ([1, 0, -1, -1] : List α))]).bind _ = _
  rw [hstackEq]
  show npVstack (ND.d2 (node_token_rows Xv (lap_eigen sq eig A dp) A.length))
      (npArray (edge_token_rows A (lap_eigen sq eig A dp))) = _
  rw [npVstack, if_pos hvstackCond]
  rw [hXe, npArray]
  simp only [atleast2d]

theorem getD_append_left {β : Type} {l₁ l₂ : List β} {i : ℕ} (d : β) (hi : i < l₁.length) :
    (l₁ ++ l₂).getD i d = l₁.getD i d := by
  rw [List.getD_eq_getElem?_getD, List.getElem?_append, if_pos hi, ← List.getD_eq_getElem?_getD]

theorem getD_append_right {β : Type} {l₁ l₂ : List β} {i : ℕ} (d : β) (hi : l₁.length ≤ i) :
    (l₁ ++ l₂).getD i d = l₂.getD (i - l₁.length) d := by
  rw [List.getD_eq_getElem?_getD, List.getElem?_append_right hi, ← List.getD_eq_getElem?_getD]

/-- Padding behaviour (lines 89–92): when the edge count is below capacity the
output is the stacked token matrix followed by `max_edges - M` all-zero rows of
the common row width `2*pw + 5` (`F = 1` feature column plus two embedding
blocks of width `pw` plus four tag/index slots). -/
theorem token_construction_padding (sq : α → α) (eig : Mat α → List α × Mat α)
    (A Xv : Mat α) (dp pw : ℕ)
    (hXv : Xv.length = A.length)
    (hF : ∀ r ∈ Xv, r.length = 1)
    (hP : (lap_eigen sq eig A dp).length = A.length)
    (hPw : ∀ r ∈ lap_eigen sq eig A dp, r.length = pw)
    (hM1 : 1 ≤ (node_pairs A).length)
    (hM2 : (node_pairs A).length < max_edges) :
    token_construction sq eig A Xv dp =
      Except.ok (node_token_rows Xv (lap_eigen sq eig A dp) A.length
        ++ edge_token_rows A (lap_eigen sq eig A dp)
        ++ zerosMat (max_edges - (node_pairs A).length) (2 * pw + 5)) := by
  obtain ⟨p0, prest, hpairs⟩ : ∃ p ps, node_pairs A = p :: ps := by
    cases hcase : node_pairs A with
    | nil => rw [hcase] at hM1; simp at hM1
    | cons p ps => exact ⟨p, ps, rfl⟩
  have hM : node_pairs A ≠ [] := by rw [hpairs]; exact List.cons_ne_nil _ _
  have hp0 := mem_node_pairs.mp (hpairs ▸ List.mem_cons_self p0 prest)
  have hN : A.length ≠ 0 := by have := hp0.1; omega
  have hNpos : 0 < A.length := Nat.pos_of_ne_zero hN
  have hstack := token_stack_spec sq eig A Xv dp pw hXv hF hP hPw hN hM
  have hrow0 : (node_token_rows Xv (lap_eigen sq eig A dp) A.length
      ++ edge_token_rows A (lap_eigen sq eig A dp)).getD 0 []
      = Xv.getD 0 [] ++ (lap_eigen sq eig A dp).getD 0 []
        ++ (lap_eigen sq eig A dp).getD 0 [] ++ ([1, 0, -1, -1] : List α) := by
    rw [getD_append_left [] (by rw [length_node_token_rows]; exact hNpos)]
    rw [node_token_rows, getD_map_range _ _ hNpos]
  have h1 : (Xv.getD 0 []).length = 1 := hF _ (getD_mem [] (by omega))
  have h2 : ((lap_eigen sq eig A dp).getD 0 []).length = pw :=
    hPw _ (getD_mem [] (by rw [hP]; omega))
  have hwidth : numCols (node_token_rows Xv (lap_eigen sq eig A dp) A.length
      ++ edge_token_rows A (lap_eigen sq eig A dp)) = 2 * pw + 5 := by
    rw [numCols, hrow0]
    simp only [List.length_append, List.length_cons, List.length_nil]
    omega
  rw [token_construction]
  show (token_stack sq eig A Xv dp).bind _ = _
  rw [hstack]
  show (if ((0:ℤ) < (max_edges : ℤ) - (node_pairs A).length) then
    Except.ok (npPadRows _ ((max_edges : ℤ) - (node_pairs A).length).toNat) else _) = _
  rw [if_pos (by omega)]
  have htoNat : (((max_edges : ℤ) - (node_pairs A).length)).toNat
      = max_edges - (node_pairs A).length := by omega
  rw [npPadRows, hwidth, htoNat, List.append_assoc]

/-- Truncation behaviour (lines 94–95): when the edge count reaches capacity
the output is all node rows followed by the first `max_edges` edge rows; no
padding rows are appended. -/
theorem token_construction_truncation (sq : α → α) (eig : Mat α → List α × Mat α)
    (A Xv : Mat α) (dp pw : ℕ)
    (hXv : Xv.length = A.length)
    (hF : ∀ r ∈ Xv, r.length = 1)
    (hP : (lap_eigen sq eig A dp).length = A.length)
    (hPw : ∀ r ∈ lap_eigen sq eig A dp, r.length = pw)
    (hM2 : max_edges ≤ (node_pairs A).length) :
    token_construction sq eig A Xv dp =
      Except.ok (node_token_rows Xv (lap_eigen sq eig A dp) A.length
        ++ (edge_token_rows A (lap_eigen sq eig A dp)).take max_edges) := by
  have hM1 : 1 ≤ (node_pairs A).length := by
    have : 0 < max_edges := by norm_num [max_edges]
    omega
  obtain ⟨p0, prest, hpairs⟩ : ∃ p ps, node_pairs A = p :: ps := by
    cases hcase : node_pairs A with
    | nil => rw [hcase] at hM1; simp at hM1
    | cons p ps => exact ⟨p, ps, rfl⟩
  have hM : node_pairs A ≠ [] := by rw [hpairs]; exact List.cons_ne_nil _ _
  have hp0 := mem_node_pairs.mp (hpairs ▸ List.mem_cons_self p0 prest)
  have hN : A.length ≠ 0 := by have := hp0.1; omega
  have hstack := token_stack_spec sq eig A Xv dp pw hXv hF hP hPw hN hM
  rw [token_construction]
  show (token_stack sq eig A Xv dp).bind _ = _
  rw [hstack]
  show (if ((0:ℤ) < (max_edges : ℤ) - (node_pairs A).length) then _ else
    Except.ok ((node_token_rows Xv (lap_eigen sq eig A dp) A.length
      ++ edge_token_rows A (lap_eigen sq eig A dp)).take (max_edges + A.length))) = _
  rw [if_neg (by omega)]
  rw [List.take_append_eq_append_take, length_node_token_rows]
  rw [List.take_of_length_le (by rw [length_node_token_rows]; omega)]
  rw [Nat.add_sub_cancel]

theorem argsort_length (v : List α) : (argsort v).length = v.length := by
  simp [argsort, List.length_insertionSort, List.length_range]

theorem getD_map {β γ : Type} (f : β → γ) {l : List β} {i : ℕ} (d : γ) (hi : i < l.length) :
    (l.map f).getD i d = f l[i] := by
  rw [List.getD_eq_getElem?_getD, List.getElem?_map, List.getElem?_eq_getElem hi]
  rfl

theorem getD_zipWith {β γ δ : Type} (f : β → γ → δ) {as : List β} {bs : List γ} {i : ℕ}
    (d : δ) (ha : i < as.length) (hb : i < bs.length) :
    (List.zipWith f as bs).getD i d = f as[i] bs[i] := by
  rw [List.getD_eq_getElem?_getD, List.getElem?_zipWith,
    List.getElem?_eq_getElem ha, List.getElem?_eq_getElem hb]
  rfl

theorem dotL_eq_zero : ∀ (a b : List α), (∀ x ∈ a, x = 0) → dotL a b = 0
  | [], _, _ => by simp [dotL]
  | _ :: _, [], _ => by simp [dotL]
  | x :: xs, y :: ys, h => by
    rw [dotL, List.zipWith_cons_cons, List.sum_cons]
    rw [h x (List.mem_cons_self x xs), zero_mul, zero_add]
    exact dotL_eq_zero xs ys (fun t ht => h t (List.mem_cons_of_mem _ ht))

theorem length_D_sqrt_inv (sq : α → α) (A : Mat α) :
    (D_sqrt_inv sq A).length = A.length := by
  simp [D_sqrt_inv, matSqrt, pinvDiag, npDiag, degrees]

theorem npDot_row (M N : Mat α) {i : ℕ} (hi : i < M.length) :
    (npDot M N).getD i []
      = (List.range (numCols N)).map (fun j => dotL (M.getD i []) (colOf N j)) := by
  rw [npDot, getD_map _ [] hi, List.getD_eq_getElem _ _ hi]


theorem D_sqrt_inv_rows (sq : α → α) (A : Mat α) {i : ℕ} (hi : i < A.length) :
    (D_sqrt_inv sq A).getD i []
      = (List.range A.length).map (fun j =>
          sq (if (if i = j then (degrees A).getD i 0 else 0) = 0 then 0
            else (if i = j then (degrees A).getD i 0 else 0)⁻¹)) := by
  have hdlen : (degrees A).length = A.length := by simp [degrees]
  simp only [D_sqrt_inv, matSqrt, pinvDiag, npDiag, hdlen, List.map_map]
  rw [getD_map_range _ _ hi]
  simp [Function.comp]

theorem D_sqrt_inv_row_degree_zero (A : Mat ℝ) (i : ℕ) (hi : i < A.length)
    (hdeg : (degrees A).getD i 0 = 0) :
    ∀ x ∈ (D_sqrt_inv Real.sqrt A).getD i [], x = 0 := by
  intro x hx
  rw [D_sqrt_inv_rows Real.sqrt A hi] at hx
  obtain ⟨j, hj, rfl⟩ := List.mem_map.mp hx
  by_cases hij : i = j
  · rw [if_pos hij, hdeg, if_pos rfl, Real.sqrt_zero]
  · rw [if_neg hij, if_pos rfl, Real.sqrt_zero]

theorem D_sqrt_inv_row_length (sq : α → α) (A : Mat α) {i : ℕ} (hi : i < A.length) :
    ((D_sqrt_inv sq A).getD i []).length = A.length := by
  rw [D_sqrt_inv_rows sq A hi, List.length_map, List.length_range]

theorem numCols_D_sqrt_inv (sq : α → α) (A : Mat α) (hA : A.length ≠ 0) :
    numCols (D_sqrt_inv sq A) = A.length := by
  rw [numCols, D_sqrt_inv_row_length sq A (Nat.pos_of_ne_zero hA)]

theorem normLap_row_degree_zero (A : Mat ℝ) (i : ℕ) (hi : i < A.length)
    (hdeg : (degrees A).getD i 0 = 0) :
    ∀ j, entry (normLap Real.sqrt A) i j = if i = j then (1 : ℝ) else 0 := by
  have hA0 : A.length ≠ 0 := by omega
  have hDlen : (D_sqrt_inv Real.sqrt A : Mat ℝ).length = A.length := length_D_sqrt_inv _ _
  have hi0 : i < (D_sqrt_inv Real.sqrt A : Mat ℝ).length := by rw [hDlen]; exact hi
  have hi1 : i < (npDot (D_sqrt_inv Real.sqrt A) A).length := by
    simp only [npDot, List.length_map]
    exact hi0
  have hinner : ∀ x ∈ (npDot (D_sqrt_inv Real.sqrt A) A).getD i [], x = 0 := by
    intro x hx
    rw [npDot_row _ _ hi0] at hx
    obtain ⟨k, hk, rfl⟩ := List.mem_map.mp hx
    exact dotL_eq_zero _ _ (D_sqrt_inv_row_degree_zero A i hi hdeg)
  have hB : ∀ x ∈ (npDot (npDot (D_sqrt_inv Real.sqrt A) A) (D_sqrt_inv Real.sqrt A)).getD i [],
      x = 0 := by
    intro x hx
    rw [npDot_row _ _ hi1] at hx
    obtain ⟨k, hk, rfl⟩ := List.mem_map.mp hx
    exact dotL_eq_zero _ _ hinner
  have hBlen : i < (npDot (npDot (D_sqrt_inv Real.sqrt A) A) (D_sqrt_inv Real.sqrt A)).length := by
    simp only [npDot, List.length_map]
    exact hi0
  have hBrowlen : ((npDot (npDot (D_sqrt_inv Real.sqrt A) A) (D_sqrt_inv Real.sqrt A)).getD i []).length
      = A.length := by
    rw [npDot_row _ _ hi1, List.length_map, List.length_range, numCols_D_sqrt_inv _ _ hA0]
  have hIlen : i < (npIdentity A.length : Mat ℝ).length := by
    simp only [npIdentity, npDiag, List.length_map, List.length_range, List.length_replicate]
    exact hi
  have hIrow : (npIdentity A.length : Mat ℝ).getD i []
      = (List.range A.length).map (fun j => if i = j then (1 : ℝ) else 0) := by
    rw [npIdentity, npDiag]
    simp only [List.length_replicate]
    rw [getD_map_range _ _ hi]
    refine List.map_congr_left ?_
    intro j hj
    by_cases hij : i = j
    · rw [if_pos hij, if_pos hij, getD_replicate hi]
    · rw [if_neg hij, if_neg hij]
  have hIrowlen : ((npIdentity A.length : Mat ℝ).getD i []).length = A.length := by
    rw [hIrow, List.length_map, List.length_range]
  intro j
  rw [normLap, matSub, entry, getD_zipWith _ [] hIlen hBlen]
  by_cases hj : j < A.length
  · have hjI : j < ((npIdentity A.length : Mat ℝ)[i]).length := by
      rw [← List.getD_eq_getElem _ _ hIlen, hIrowlen]
      exact hj
    have hjB : j < ((npDot (npDot (D_sqrt_inv Real.sqrt A) A) (D_sqrt_inv Real.sqrt A))[i]).length := by
      rw [← List.getD_eq_getElem _ _ hBlen, hBrowlen]
      exact hj
    rw [getD_zipWith _ 0 hjI hjB]
    have h1 : ((npIdentity A.length : Mat ℝ)[i])[j] = if i = j then (1 : ℝ) else 0 := by
      have := List.getD_eq_getElem ((npIdentity A.length : Mat ℝ)[i]) 0 hjI
      rw [← this, ← List.getD_eq_getElem _ _ hIlen, hIrow, getD_map_range _ _ hj]
    have h2 : ((npDot (npDot (D_sqrt_inv Real.sqrt A) A) (D_sqrt_inv Real.sqrt A))[i])[j]
        = (0 : ℝ) := by
      refine hB _ ?_
      rw [List.getD_eq_getElem _ _ hBlen]
      exact List.getElem_mem hjB
    rw [h1, h2, sub_zero]
  · have hzl : (List.zipWith (fun x y => x - y) ((npIdentity A.length : Mat ℝ)[i])
        ((npDot (npDot (D_sqrt_inv Real.sqrt A) A) (D_sqrt_inv Real.sqrt A))[i])).length
        = A.length := by
      rw [List.length_zipWith, ← List.getD_eq_getElem _ _ hIlen, hIrowlen,
        ← List.getD_eq_getElem _ _ hBlen, hBrowlen, min_self]
    rw [List.getD_eq_getElem?_getD, List.getElem?_eq_none (by omega), if_neg (by omega)]
    rfl

/-! Concrete inputs and the claim theorems. -/

/-- Stand-in for `np.sqrt` in rational shape-level evaluations; none of the
shape or control-flow facts evaluated below depend on the numerical values of
the embedding. -/
def sqrtQ : ℚ → ℚ := fun x => x

/-- Shape-correct stand-in for `np.linalg.eig` over `ℚ`: eigenvalue list of
length `N` and the `N×N` identity as eigenvector matrix.  For the zero
adjacency matrix this is the true output: the degree matrix is zero, so
`L = I`, whose eigendecomposition has all eigenvalues `1` with the identity
eigenvectors. -/
def eigI : Mat ℚ → List ℚ × Mat ℚ := fun L => (List.replicate L.length 1, npIdentity L.length)

/-- A 3×3 adjacency matrix with one edge `(0, 1)`, used at `dp = 3 = N`. -/
def A_c1 : Mat ℚ := [[0, 1, 0], [0, 0, 0], [0, 0, 0]]

/-- A single-column node-feature matrix for `A_c1`. -/
def Xv_c1 : Mat ℚ := [[5], [6], [7]]

/-- The unpadded token matrix the code produces on `(A_c1, Xv_c1, dp = 3)`:
three node rows and one edge row of width 9 (the embedding block has only
two columns because `N = dp`). -/
def X_c1 : Mat ℚ :=
  [[5, 0, 0, 0, 0, 1, 0, -1, -1],
   [6, 1, 0, 1, 0, 1, 0, -1, -1],
   [7, 0, 1, 0, 1, 1, 0, -1, -1],
   [1, 0, 0, 1, 0, 0, 1, 0, 1]]

/-- The 3×3 zero adjacency matrix (a graph with no edges). -/
def Azero3 : Mat ℚ := zerosMat 3 3

/-- A single-column feature matrix for the 3-node edgeless graph. -/
def Xvzero3 : Mat ℚ := [[0], [0], [0]]

/-- Claim C1: at `N = dp = 3` with a single feature column, the code returns a
matrix of `3 + max_edges` rows but only `9 = F + 2*(dp-1) + 4` columns instead
of the stated `F + 2*dp + 4 = 11`: the slice `eigvecs[:, 1:dp+1]` clips to
`dp - 1` columns when `N = dp`, contradicting the docstrings of both source
functions. -/
theorem token_construction_width_at_N_eq_dp :
    token_construction sqrtQ eigI A_c1 Xv_c1 3 = Except.ok (npPadRows X_c1 2999)
    ∧ numCols (npPadRows X_c1 2999) = 9
    ∧ numRows (npPadRows X_c1 2999) = 3 + max_edges := by
  refine ⟨by rfl, by rfl, ?_⟩
  rw [numRows, npPadRows, zerosMat, List.length_append, List.length_replicate]
  decide

/-- Claim C2: `lap_eigen` on a 3×3 matrix with `dp = 3` returns a 3×2 matrix,
not the documented `N×dp` one: the `len(sorted_indices) >= dp` branch is taken
at `N = dp` and the slice `eigvecs[:, 1:dp+1]` clips.  For the zero matrix
`eigI` is the true eigendecomposition of `L = I`. -/
theorem lap_eigen_shape_at_N_eq_dp :
    (lap_eigen sqrtQ eigI Azero3 3).length = 3
    ∧ ∀ r ∈ lap_eigen sqrtQ eigI Azero3 3, r.length = 2 := by
  constructor
  · decide
  · decide

/-- Claim C3 (counterexample): on a graph with zero edges the code does not
produce a padded matrix at all; `np.vstack` raises because the empty `new_Xe`
is a 1-D `(0,)` array whose `atleast_2d` form has 0 columns. -/
theorem token_construction_error_on_zero_edges :
    token_construction sqrtQ eigI Azero3 Xvzero3 3
      = Except.error "vstack: column count mismatch" := by
  rfl

/-- A one-node graph with a self-loop of weight 2 (one edge). -/
def A_one : Mat ℚ := [[2]]

/-- Feature matrix for the one-node graph. -/
def Xv_one : Mat ℚ := [[7]]

/-- Stand-in eigendecomposition for 1×1 Laplacians: one eigenvalue, the 1×1
identity eigenvector matrix. -/
def eig_one : Mat ℚ → List ℚ × Mat ℚ := fun _ => ([0], [[1]])

/-- Claim C3 (amended): for a single-column `Xv`, a shape-correct spectral
embedding and `1 ≤ M < max_edges` edges, the output is exactly the `N` node
rows, then the `M` edge rows, then `max_edges - M` rows that are all zero. -/
theorem token_construction_padding_correct (sq : α → α) (eig : Mat α → List α × Mat α)
    (A Xv : Mat α) (dp pw : ℕ)
    (hXv : Xv.length = A.length)
    (hF : ∀ r ∈ Xv, r.length = 1)
    (hP : (lap_eigen sq eig A dp).length = A.length)
    (hPw : ∀ r ∈ lap_eigen sq eig A dp, r.length = pw)
    (hM1 : 1 ≤ (node_pairs A).length)
    (hM2 : (node_pairs A).length < max_edges) :
    token_construction sq eig A Xv dp
      = Except.ok (node_token_rows Xv (lap_eigen sq eig A dp) A.length
        ++ edge_token_rows A (lap_eigen sq eig A dp)
        ++ zerosMat (max_edges - (node_pairs A).length) (2 * pw + 5))
    ∧ (node_token_rows Xv (lap_eigen sq eig A dp) A.length).length = A.length
    ∧ (edge_token_rows A (lap_eigen sq eig A dp)).length = (node_pairs A).length
    ∧ (zerosMat (max_edges - (node_pairs A).length) (2 * pw + 5) : Mat α).length
        = max_edges - (node_pairs A).length
    ∧ ∀ r ∈ (zerosMat (max_edges - (node_pairs A).length) (2 * pw + 5) : Mat α),
        ∀ x ∈ r, x = 0 := by
  refine ⟨token_construction_padding sq eig A Xv dp pw hXv hF hP hPw hM1 hM2,
    length_node_token_rows _ _ _, length_edge_token_rows _ _, by simp [zerosMat], ?_⟩
  intro r hr x hx
  rw [List.eq_of_mem_replicate hr] at hx
  exact List.eq_of_mem_replicate hx

/-- Witness for C3's amended theorem at the one-node, one-edge graph. -/
theorem token_construction_padding_correct_witness :
    token_construction sqrtQ eig_one A_one Xv_one 3
      = Except.ok (node_token_rows Xv_one (lap_eigen sqrtQ eig_one A_one 3) A_one.length
        ++ edge_token_rows A_one (lap_eigen sqrtQ eig_one A_one 3)
        ++ zerosMat (max_edges - (node_pairs A_one).length) (2 * 3 + 5)) :=
  (token_construction_padding_correct sqrtQ eig_one A_one Xv_one 3 3 (by decide) (by decide)
    (by decide) (by decide) (by decide) (by decide)).1

/-- The 55-node complete graph with self-loops: 3025 edges, above capacity. -/
def A55 : Mat ℚ := List.replicate 55 (List.replicate 55 1)

/-- Single-column feature matrix for the 55-node graph. -/
def Xv55 : Mat ℚ := List.replicate 55 [0]

/-- Shape-correct stand-in eigendecomposition for 55×55 Laplacians. -/
def eig55 : Mat ℚ → List ℚ × Mat ℚ :=
  fun _ => (List.replicate 55 0, List.replicate 55 (List.replicate 55 0))

/-- Claim C4: with `M ≥ max_edges` edges the output is all `N` node rows
followed by exactly the first `max_edges` edge rows in edge-list order, and
nothing else (no zero padding). -/
theorem token_construction_truncation_correct (sq : α → α) (eig : Mat α → List α × Mat α)
    (A Xv : Mat α) (dp pw : ℕ)
    (hXv : Xv.length = A.length)
    (hF : ∀ r ∈ Xv, r.length = 1)
    (hP : (lap_eigen sq eig A dp).length = A.length)
    (hPw : ∀ r ∈ lap_eigen sq eig A dp, r.length = pw)
    (hMge : max_edges ≤ (node_pairs A).length) :
    token_construction sq eig A Xv dp
      = Except.ok (node_token_rows Xv (lap_eigen sq eig A dp) A.length
        ++ (edge_token_rows A (lap_eigen sq eig A dp)).take max_edges)
    ∧ (node_token_rows Xv (lap_eigen sq eig A dp) A.length).length = A.length
    ∧ ((edge_token_rows A (lap_eigen sq eig A dp)).take max_edges).length = max_edges := by
  refine ⟨token_construction_truncation sq eig A Xv dp pw hXv hF hP hPw hMge,
    length_node_token_rows _ _ _, ?_⟩
  rw [List.length_take, length_edge_token_rows]
  omega

/-- Witness for C4 at the 55-node complete graph (3025 ≥ 3000 edges). -/
theorem token_construction_truncation_correct_witness :
    token_construction sqrtQ eig55 A55 Xv55 3
      = Except.ok (node_token_rows Xv55 (lap_eigen sqrtQ eig55 A55 3) A55.length
        ++ (edge_token_rows A55 (lap_eigen sqrtQ eig55 A55 3)).take max_edges) := by
  have hall : ∀ i j, i < A55.length → j < A55.length → entry A55 i j ≠ 0 := by
    intro i j hi hj
    rw [entry, A55, getD_replicate (by simpa [A55] using hi),
      getD_replicate (by simpa [A55] using hj)]
    norm_num
  have hMge : max_edges ≤ (node_pairs A55).length := by
    rw [length_node_pairs_of_ne_zero A55 hall]
    show max_edges ≤ A55.length * A55.length
    rw [A55, List.length_replicate]
    decide
  exact (token_construction_truncation_correct sqrtQ eig55 A55 Xv55 3 3 (by decide) (by decide)
    (by decide) (by decide) hMge).1

/-- A two-node graph with one undirected edge (encoded in both directions). -/
def A_edge2 : Mat ℚ := [[0, 1], [1, 0]]

/-- Stand-in eigendecomposition for the 2×2 case: eigenvalues `0 ≤ 2` with
(unnormalized) eigenvectors `(1,1)` and `(1,-1)` as columns. -/
def eig_edge2 : Mat ℚ → List ℚ × Mat ℚ := fun _ => ([0, 2], [[1, 1], [1, -1]])

/-- Claim C5: when `N > dp`, `lap_eigen` is the slice of columns `1..dp` of
the eigenvector matrix with columns reordered by ascending eigenvalue: column
`j` of the result is column `j + 1` of the sorted eigenvector matrix, the
reordered eigenvalue list is ascending, and the result is `N×dp` — the column
of rank 0 (the lowest eigenvalue) is never among the selected columns. -/
theorem lap_eigen_skips_lowest_when_N_gt_dp (sq : α → α) (eig : Mat α → List α × Mat α)
    (A : Mat α) (dp : ℕ)
    (hvals : (eig (normLap sq A)).1.length = A.length)
    (hvecs : (eig (normLap sq A)).2.length = A.length)
    (hdp : dp < A.length) :
    lap_eigen sq eig A dp
      = colSlice (colPermute (eig (normLap sq A)).2 (argsort (eig (normLap sq A)).1)) 1 (dp + 1)
    ∧ (∀ j, j < dp →
        colOf (lap_eigen sq eig A dp) j
          = colOf (colPermute (eig (normLap sq A)).2 (argsort (eig (normLap sq A)).1)) (j + 1))
    ∧ ((argsort (eig (normLap sq A)).1).map
        (fun k => (eig (normLap sq A)).1.getD k 0)).Pairwise (fun a b => a ≤ b)
    ∧ (lap_eigen sq eig A dp).length = A.length
    ∧ (∀ r ∈ lap_eigen sq eig A dp, r.length = dp) := by
  have hbranch : lap_eigen sq eig A dp
      = colSlice (colPermute (eig (normLap sq A)).2 (argsort (eig (normLap sq A)).1)) 1 (dp + 1) := by
    rw [lap_eigen]
    rw [if_pos (by rw [argsort_length, hvals]; omega)]
  refine ⟨hbranch, ?_, ?_, ?_, ?_⟩
  · intro j hj
    rw [hbranch, colSlice, colOf, colOf, List.map_map]
    refine List.map_congr_left ?_
    intro r hr
    show (((r.drop 1).take (dp + 1 - 1)).getD j 0) = r.getD (j + 1) 0
    rw [Nat.add_sub_cancel]
    rw [List.getD_eq_getElem?_getD, List.getElem?_take, if_pos hj, List.getElem?_drop,
      ← List.getD_eq_getElem?_getD, Nat.add_comm]
  · haveI htot : IsTotal ℕ
        (fun i j => (eig (normLap sq A)).1.getD i 0 ≤ (eig (normLap sq A)).1.getD j 0) :=
      ⟨fun a b => le_total _ _⟩
    haveI htrans : IsTrans ℕ
        (fun i j => (eig (normLap sq A)).1.getD i 0 ≤ (eig (normLap sq A)).1.getD j 0) :=
      ⟨fun a b c hab hbc => le_trans hab hbc⟩
    have hsorted := List.sorted_insertionSort
      (fun i j => (eig (normLap sq A)).1.getD i 0 ≤ (eig (normLap sq A)).1.getD j 0)
      (List.range (eig (normLap sq A)).1.length)
    exact List.pairwise_map.mpr hsorted
  · rw [hbranch]
    simp [colSlice, colPermute, hvecs]
  · rw [hbranch]
    intro r hr
    obtain ⟨r1, hr1, rfl⟩ := List.mem_map.mp hr
    obtain ⟨r2, hr2, rfl⟩ := List.mem_map.mp hr1
    simp only [List.length_take, List.length_drop, List.length_map, argsort_length, hvals]
    omega

/-- Witness for C5 at the two-node one-edge graph with `dp = 1 < N = 2`. -/
theorem lap_eigen_skips_lowest_witness :
    lap_eigen sqrtQ eig_edge2 A_edge2 1
      = colSlice (colPermute (eig_edge2 (normLap sqrtQ A_edge2)).2
          (argsort (eig_edge2 (normLap sqrtQ A_edge2)).1)) 1 (1 + 1) :=
  (lap_eigen_skips_lowest_when_N_gt_dp sqrtQ eig_edge2 A_edge2 1 (by decide) (by decide)
    (by decide)).1

/-- Claim C6: in the unpadded token matrix the first `N` rows are the node
rows in index order, row `i` being `Xv[i] ++ P[i] ++ P[i] ++ [1, 0, -1, -1]`,
and the following `M` rows are the edge rows, row `N + k` being
`[A[u,v]] ++ P[u] ++ P[v] ++ [0, 1, u, v]` for the k-th edge `(u, v)`. -/
theorem token_stack_rows_spec (sq : α → α) (eig : Mat α → List α × Mat α)
    (A Xv : Mat α) (dp pw : ℕ)
    (hXv : Xv.length = A.length)
    (hF : ∀ r ∈ Xv, r.length = 1)
    (hP : (lap_eigen sq eig A dp).length = A.length)
    (hPw : ∀ r ∈ lap_eigen sq eig A dp, r.length = pw)
    (hM1 : 1 ≤ (node_pairs A).length) :
    token_stack sq eig A Xv dp
      = Except.ok (node_token_rows Xv (lap_eigen sq eig A dp) A.length
        ++ edge_token_rows A (lap_eigen sq eig A dp))
    ∧ (∀ i, i < A.length →
        (node_token_rows Xv (lap_eigen sq eig A dp) A.length
          ++ edge_token_rows A (lap_eigen sq eig A dp)).getD i []
          = Xv.getD i [] ++ (lap_eigen sq eig A dp).getD i []
            ++ (lap_eigen sq eig A dp).getD i [] ++ ([1, 0, -1, -1] : List α))
    ∧ (∀ k, k < (node_pairs A).length →
        (node_token_rows Xv (lap_eigen sq eig A dp) A.length
          ++ edge_token_rows A (lap_eigen sq eig A dp)).getD (A.length + k) []
          = [entry A ((node_pairs A).getD k (0, 0)).1 ((node_pairs A).getD k (0, 0)).2]
            ++ (lap_eigen sq eig A dp).getD ((node_pairs A).getD k (0, 0)).1 []
            ++ (lap_eigen sq eig A dp).getD ((node_pairs A).getD k (0, 0)).2 []
            ++ ([0, 1, (((node_pairs A).getD k (0, 0)).1 : α),
                (((node_pairs A).getD k (0, 0)).2 : α)] : List α)) := by
  obtain ⟨p0, prest, hpairs⟩ : ∃ p ps, node_pairs A = p :: ps := by
    cases hcase : node_pairs A with
    | nil => rw [hcase] at hM1; simp at hM1
    | cons p ps => exact ⟨p, ps, rfl⟩
  have hM : node_pairs A ≠ [] := by rw [hpairs]; exact List.cons_ne_nil _ _
  have hp0 := mem_node_pairs.mp (hpairs ▸ List.mem_cons_self p0 prest)
  have hN : A.length ≠ 0 := by have := hp0.1; omega
  refine ⟨token_stack_spec sq eig A Xv dp pw hXv hF hP hPw hN hM, ?_, ?_⟩
  · intro i hi
    rw [getD_append_left [] (by rw [length_node_token_rows]; exact hi)]
    rw [node_token_rows, getD_map_range _ _ hi]
  · intro k hk
    rw [getD_append_right [] (by rw [length_node_token_rows]; omega)]
    rw [length_node_token_rows, Nat.add_sub_cancel_left]
    have hk2 : k < (edge_token_rows A (lap_eigen sq eig A dp)).length := by
      rw [length_edge_token_rows]; exact hk
    rw [edge_token_rows, getD_map _ [] (by rw [length_edge_token_rows] at hk2; exact hk2)]
    rw [List.getD_eq_getElem _ _ hk]

/-- Witness for C6 at the one-node, one-edge graph. -/
theorem token_stack_rows_witness :
    token_stack sqrtQ eig_one A_one Xv_one 3
      = Except.ok (node_token_rows Xv_one (lap_eigen sqrtQ eig_one A_one 3) A_one.length
        ++ edge_token_rows A_one (lap_eigen sqrtQ eig_one A_one 3)) :=
  (token_stack_rows_spec sqrtQ eig_one A_one Xv_one 3 3 (by decide) (by decide) (by decide)
    (by decide) (by decide)).1

/-- A 2×2 matrix with a nonzero diagonal entry at `(1, 1)` (a self-loop). -/
def A_diag : Mat ℚ := [[0, 2], [0, 3]]

/-- Claim C7: the edge list is exactly the pairs `(i, j)` with `A[i,j] ≠ 0`,
in strictly increasing row-major (lexicographic) order, with diagonal entries
(self-loops) included and not filtered. -/
theorem node_pairs_row_major_spec (A : Mat α) :
    (∀ p : ℕ × ℕ, p ∈ node_pairs A ↔ p.1 < A.length ∧ p.2 < A.length ∧ entry A p.1 p.2 ≠ 0)
    ∧ (node_pairs A).Pairwise (fun p q : ℕ × ℕ => p.1 < q.1 ∨ (p.1 = q.1 ∧ p.2 < q.2))
    ∧ (∀ i, i < A.length → entry A i i ≠ 0 → (i, i) ∈ node_pairs A) :=
  ⟨fun _ => mem_node_pairs, node_pairs_pairwise A,
    fun _ hi hne => mem_node_pairs.mpr ⟨hi, hi, hne⟩⟩

/-- Witness for C7: the self-loop `(1, 1)` of `A_diag` is in its edge list. -/
theorem node_pairs_row_major_witness : ((1, 1) : ℕ × ℕ) ∈ node_pairs A_diag :=
  ((node_pairs_row_major_spec A_diag).1 (1, 1)).mpr (by decide)

/-- The 1×1 zero adjacency matrix over `ℝ` (an isolated, degree-0 node). -/
def A_zero1 : Mat ℝ := [[0]]

/-- Claim C8: for a node `i` of degree 0, the `D^{-1/2}` matrix built from the
pseudo-inverse has an all-zero row `i` (0 is mapped to 0, not to a division by
zero), and row `i` of the normalized Laplacian is the corresponding identity
row — every entry of the computation is a well-defined real number. -/
theorem lap_eigen_zero_degree_safe (A : Mat ℝ) (i : ℕ) (hi : i < A.length)
    (hdeg : (degrees A).getD i 0 = 0) :
    (∀ j, entry (D_sqrt_inv Real.sqrt A) i j = 0)
    ∧ (∀ j, entry (normLap Real.sqrt A) i j = if i = j then (1 : ℝ) else 0) := by
  refine ⟨?_, normLap_row_degree_zero A i hi hdeg⟩
  intro j
  rw [entry]
  rcases Nat.lt_or_ge j ((D_sqrt_inv Real.sqrt A).getD i []).length with hlt | hge
  · exact D_sqrt_inv_row_degree_zero A i hi hdeg _ (getD_mem 0 hlt)
  · rw [List.getD_eq_getElem?_getD, List.getElem?_eq_none hge]
    rfl

/-- Witness for C8 at the isolated single node. -/
theorem lap_eigen_zero_degree_safe_witness :
    (∀ j, entry (D_sqrt_inv Real.sqrt A_zero1) 0 j = 0)
    ∧ (∀ j, entry (normLap Real.sqrt A_zero1) 0 j = if 0 = j then (1 : ℝ) else 0) :=
  lap_eigen_zero_degree_safe A_zero1 0 (by norm_num [A_zero1])
    (by norm_num [A_zero1, degrees])

/-- A one-node graph with a self-loop, fed to the pipeline with `dp = 0`. -/
def A_dp0 : Mat ℚ := [[1]]

/-- Feature matrix for `A_dp0`. -/
def Xv_dp0 : Mat ℚ := [[2]]

/-- Claim C9 (counterexample): with the invalid `dp = 0` the pipeline happily
returns a result instead of failing with any input-validation error. -/
theorem token_construction_accepts_dp_zero :
    (token_construction sqrtQ eigI A_dp0 Xv_dp0 0).isOk = true := by
  rfl

/-- A second one-node graph with a self-loop, for the C9 witness. -/
def A_dp0w : Mat ℚ := [[3]]

/-- Feature matrix for `A_dp0w`. -/
def Xv_dp0w : Mat ℚ := [[4]]

/-- Claim C9 (amended): the pipeline performs no input validation; with the
non-positive `dp = 0` and an otherwise well-formed graph it returns a result
matrix rather than surfacing an error. -/
theorem token_construction_no_dp_validation (sq : α → α) (eig : Mat α → List α × Mat α)
    (A Xv : Mat α) (pw : ℕ)
    (hXv : Xv.length = A.length)
    (hF : ∀ r ∈ Xv, r.length = 1)
    (hP : (lap_eigen sq eig A 0).length = A.length)
    (hPw : ∀ r ∈ lap_eigen sq eig A 0, r.length = pw)
    (hM1 : 1 ≤ (node_pairs A).length)
    (hM2 : (node_pairs A).length < max_edges) :
    ∃ X, token_construction sq eig A Xv 0 = Except.ok X :=
  ⟨_, token_construction_padding sq eig A Xv 0 pw hXv hF hP hPw hM1 hM2⟩

/-- Witness for C9's amended theorem. -/
theorem token_construction_no_dp_validation_witness :
    ∃ X, token_construction sqrtQ eig_one A_dp0w Xv_dp0w 0 = Except.ok X :=
  token_construction_no_dp_validation sqrtQ eig_one A_dp0w Xv_dp0w 0 (by decide) (by decide)
    (by decide) (by decide) (by decide) (by decide)

/-- The 1×1 zero adjacency matrix over `ℚ`, used with `dp = 2 > N = 1`. -/
def A_single : Mat ℚ := [[0]]

/-- Stand-in eigendecomposition for the 1×1 Laplacian `[[1]]` of `A_single`:
its true output, one eigenvalue `1` with eigenvector `[1]`. -/
def eig_single : Mat ℚ → List ℚ × Mat ℚ := fun _ => ([1], [[1]])

/-- Claim C10: when `N < dp`, `lap_eigen` takes the other branch and copies
all `N` sorted eigenvector columns — including column 0, the one of the lowest
eigenvalue — into the leading columns of an `N×dp` zero matrix, leaving the
last `dp - N` columns zero. -/
theorem lap_eigen_zero_fill_when_N_lt_dp (sq : α → α) (eig : Mat α → List α × Mat α)
    (A : Mat α) (dp : ℕ)
    (hvals : (eig (normLap sq A)).1.length = A.length)
    (hvecs : (eig (normLap sq A)).2.length = A.length)
    (hdp : A.length < dp) :
    lap_eigen sq eig A dp
      = setLeadingCols (zerosMat A.length dp)
          (colPermute (eig (normLap sq A)).2 (argsort (eig (normLap sq A)).1)) A.length
    ∧ (lap_eigen sq eig A dp).length = A.length
    ∧ (∀ i, i < A.length →
        (lap_eigen sq eig A dp).getD i []
          = (colPermute (eig (normLap sq A)).2 (argsort (eig (normLap sq A)).1)).getD i []
            ++ List.replicate (dp - A.length) (0 : α))
    ∧ (∀ i, i < A.length →
        ((lap_eigen sq eig A dp).getD i []).getD 0 0
          = ((colPermute (eig (normLap sq A)).2
              (argsort (eig (normLap sq A)).1)).getD i []).getD 0 0) := by
  have hpermlen : (colPermute (eig (normLap sq A)).2 (argsort (eig (normLap sq A)).1)).length
      = A.length := by
    simp [colPermute, hvecs]
  have hpermrow : ∀ i, i < A.length →
      ((colPermute (eig (normLap sq A)).2 (argsort (eig (normLap sq A)).1)).getD i []).length
        = A.length := by
    intro i hi
    rw [colPermute, getD_map _ [] (by rw [hvecs]; exact hi)]
    rw [List.length_map, argsort_length, hvals]
  have hsortlen : (argsort (eig (normLap sq A)).1).length = A.length := by
    rw [argsort_length, hvals]
  have hbranch : lap_eigen sq eig A dp
      = setLeadingCols (zerosMat A.length dp)
          (colPermute (eig (normLap sq A)).2 (argsort (eig (normLap sq A)).1)) A.length := by
    rw [lap_eigen]
    rw [if_neg (by rw [hsortlen]; omega), hsortlen]
  have hrow : ∀ i, i < A.length →
      (lap_eigen sq eig A dp).getD i []
        = (colPermute (eig (normLap sq A)).2 (argsort (eig (normLap sq A)).1)).getD i []
          ++ List.replicate (dp - A.length) (0 : α) := by
    intro i hi
    have hzlen : i < (zerosMat A.length dp : Mat α).length := by
      simpa [zerosMat] using hi
    have hplen : i < (colPermute (eig (normLap sq A)).2 (argsort (eig (normLap sq A)).1)).length := by
      rw [hpermlen]; exact hi
    rw [hbranch, setLeadingCols, getD_zipWith _ [] hzlen hplen]
    have h1 : (zerosMat A.length dp : Mat α)[i] = List.replicate dp (0 : α) := by
      simp [zerosMat]
    have h2 : (colPermute (eig (normLap sq A)).2 (argsort (eig (normLap sq A)).1))[i]
        = (colPermute (eig (normLap sq A)).2 (argsort (eig (normLap sq A)).1)).getD i [] :=
      (List.getD_eq_getElem _ _ hplen).symm
    rw [h1, h2, List.drop_replicate, List.take_of_length_le (le_of_eq (hpermrow i hi))]
  refine ⟨hbranch, ?_, hrow, ?_⟩
  · rw [hbranch, setLeadingCols, List.length_zipWith, hpermlen]
    simp [zerosMat]
  · intro i hi
    rw [hrow i hi, getD_append_left 0 (by rw [hpermrow i hi]; omega)]

/-- Witness for C10 at the single-node graph with `dp = 2`. -/
theorem lap_eigen_zero_fill_witness :
    lap_eigen sqrtQ eig_single A_single 2
      = setLeadingCols (zerosMat A_single.length 2)
          (colPermute (eig_single (normLap sqrtQ A_single)).2
            (argsort (eig_single (normLap sqrtQ A_single)).1)) A_single.length :=
  (lap_eigen_zero_fill_when_N_lt_dp sqrtQ eig_single A_single 2 (by decide) (by decide)
    (by decide)).1

end Tokenizer
